import Mathlib

/-!
Verification of the example-coverage computation of
`terraform-provider-coverage` (`internal/provider`, functions
`findMissingTests` and `searchFile`).

The Go code is shallowly embedded as follows.

* The regular expression literal `^\s*source\s*=\s*".+examples.+"$`
  (compiled with Go's `regexp`, RE2 semantics: anchored match over the whole
  line, `\s` = `[\t\n\f\r ]`, `.` = any character except newline) is embedded
  as a small regular-expression datatype `RE` with a Brzozowski-derivative
  matcher `rmatch`, proved correct against an inductive language semantics
  `Lang`.
* `regexp.MustCompile("\x22(.*?)\x22").FindAllStringSubmatch(line, -1)`
  (leftmost, non-overlapping, lazy) is embedded as the state machine
  `extractQuoted`: quoted tokens are the maximal quote-free spans between
  consecutive pairs of double quotes; a span interrupted by a newline is
  abandoned exactly as the lazy `.` (which cannot cross a newline) abandons it.
* `filepath.Base` (Unix rules from the Go standard library: empty path gives
  `.`, trailing separators are stripped, everything up to the final separator
  is discarded, an all-separator path gives `/`) is embedded as `filepathBase`.
* The filesystem is an explicit structure `FS` giving the directory listings
  (`os.ReadDir`) and the opened files' scanned lines (`os.Open` +
  `bufio.Scanner`).  A `bufio.Scanner` that hits a read error mid-scan stops
  delivering lines and records the error in `Scanner.Err`; this is embedded by
  `FileData`, whose `lines` are the lines delivered before the scan ended and
  whose `scanErr` flag records whether the scan ended due to an error.  The Go
  code never consults `scanner.Err()`, so the embedding of `searchFile`
  ignores `scanErr` — exactly as the source does.
* The `panic(err)` calls on `os.ReadDir` / `os.Open` failure abort the whole
  operation; they are embedded as the error results of `FsResult`.
-/

namespace Coverage

/-- Character class of Go's (RE2) `\s`: tab, newline, form feed, carriage
return and space. -/
def isGoSpace (c : Char) : Bool :=
  c == ' ' || c == '\t' || c == '\n' || c == '\x0c' || c == '\r'

/-- Regular expressions over characters, with character classes given by
boolean predicates. -/
inductive RE where
  | emp : RE
  | eps : RE
  | cls : (Char → Bool) → RE
  | alt : RE → RE → RE
  | cat : RE → RE → RE
  | star : RE → RE

/-- Does the regular expression accept the empty string? -/
def nullable : RE → Bool
  | .emp => false
  | .eps => true
  | .cls _ => false
  | .alt r s => nullable r || nullable s
  | .cat r s => nullable r && nullable s
  | .star _ => true

/-- Is the regular expression syntactically the empty language? -/
def RE.isEmp : RE → Bool
  | .emp => true
  | _ => false

/-- Is the regular expression syntactically the empty string? -/
def RE.isEps : RE → Bool
  | .eps => true
  | _ => false

/-- Alternation, simplifying away the empty language. -/
def RE.altS (r s : RE) : RE :=
  if r.isEmp then s else if s.isEmp then r else .alt r s

/-- Concatenation, simplifying away the empty language and empty string. -/
def RE.catS (r s : RE) : RE :=
  if r.isEmp || s.isEmp then .emp
  else if r.isEps then s
  else if s.isEps then r
  else .cat r s

/-- Brzozowski derivative of a regular expression by a character. -/
def deriv : RE → Char → RE
  | .emp, _ => .emp
  | .eps, _ => .emp
  | .cls p, c => if p c then .eps else .emp
  | .alt r s, c => RE.altS (deriv r c) (deriv s c)
  | .cat r s, c =>
      if nullable r then RE.altS (RE.catS (deriv r c) s) (deriv s c)
      else RE.catS (deriv r c) s
  | .star r, c => RE.catS (deriv r c) (.star r)

/-- Derivative-based anchored matcher: does the regular expression match the
whole string? -/
def rmatch (r : RE) : List Char → Bool
  | [] => nullable r
  | c :: cs => rmatch (deriv r c) cs

/-- Language semantics of regular expressions. -/
inductive Lang : RE → List Char → Prop where
  | eps : Lang .eps []
  | cls {p : Char → Bool} {c : Char} : p c = true → Lang (.cls p) [c]
  | altL {r s : RE} {x : List Char} : Lang r x → Lang (.alt r s) x
  | altR {r s : RE} {x : List Char} : Lang s x → Lang (.alt r s) x
  | cat {r s : RE} {a b : List Char} :
      Lang r a → Lang s b → Lang (.cat r s) (a ++ b)
  | starNil {r : RE} : Lang (.star r) []
  | starCons {r : RE} {a b : List Char} :
      Lang r a → Lang (.star r) b → Lang (.star r) (a ++ b)

/-- Regular expression for a single character. -/
def chrRE (c : Char) : RE := .cls (fun d => d == c)

/-- Regular expression for Go's `.`: any character except newline. -/
def dotRE : RE := .cls (fun c => c != '\n')

/-- Regular expression for Go's `\s` character class. -/
def wsRE : RE := .cls isGoSpace

/-- Regular expression for a literal string. -/
def strRE : List Char → RE
  | [] => .eps
  | c :: cs => .cat (chrRE c) (strRE cs)

/-- Regular expression for `r+`, one or more repetitions. -/
def plusRE (r : RE) : RE := .cat r (.star r)

/-- Embedding of the Go regular expression
`^\s*source\s*=\s*".+examples.+"$` compiled in `searchFile`
(`internal/provider` source, RE2 semantics: `MatchString` with both anchors
matches the whole line, `\s` is `[\t\n\f\r ]`, and `.` is any character other
than newline). -/
def sourceLineRE : RE :=
  .cat (.star wsRE)
    (.cat (strRE "source".data)
      (.cat (.star wsRE)
        (.cat (chrRE '=')
          (.cat (.star wsRE)
            (.cat (chrRE '"')
              (.cat (plusRE dotRE)
                (.cat (strRE "examples".data)
                  (.cat (plusRE dotRE) (chrRE '"')))))))))

/-- State machine embedding of
`regexp.MustCompile("\x22(.*?)\x22").FindAllStringSubmatch(line, -1)` from
`searchFile`: the submatches of the leftmost non-overlapping lazy matches of
a quoted span.  The machine is outside a quote (`inside = false`) or inside
one accumulating the reversed content (`inside = true`); a closing quote
emits the content, an unclosed trailing quote emits nothing, and a newline
aborts the current span (the lazy `.` of RE2 cannot cross a newline, and no
further opening quote can occur before the newline because any quote would
have closed the span). -/
def extractQuotedAux : List Char → Bool → List Char → List (List Char)
  | [], _, _ => []
  | c :: cs, false, acc =>
      if c = '"' then extractQuotedAux cs true []
      else extractQuotedAux cs false acc
  | c :: cs, true, acc =>
      if c = '"' then acc.reverse :: extractQuotedAux cs false []
      else if c = '\n' then extractQuotedAux cs false []
      else extractQuotedAux cs true (c :: acc)

/-- All double-quoted substrings of a line, in order. -/
def extractQuoted (l : List Char) : List (List Char) :=
  extractQuotedAux l false []

/-- Embedding of the trailing-separator-stripping loop of Go's
`filepath.Base` (Unix separator `/`). -/
def stripTrailingSlashes (l : List Char) : List Char :=
  (l.reverse.dropWhile (fun c => c == '/')).reverse

/-- Embedding of the final loop of Go's `filepath.Base`: the suffix after the
last `/` (scanning backwards from the end for a separator). -/
def afterLastSlash (l : List Char) : List Char :=
  (l.reverse.takeWhile (fun c => c != '/')).reverse

/-- Embedding of Go's `filepath.Base` on Unix: an empty path yields `.`,
trailing slashes are stripped, everything up to the final slash is discarded,
and a path consisting only of slashes yields `/`. -/
def filepathBase (l : List Char) : List Char :=
  if l = [] then ['.']
  else
    let p := stripTrailingSlashes l
    let b := afterLastSlash p
    if b = [] then ['/'] else b

/-- The loop body of `searchFile` for one scanned line: if the line matches
the compiled pattern `^\s*source\s*=\s*".+examples.+"$`, every quoted
substring is extracted and normalized with `filepath.Base`; otherwise the
line contributes nothing. -/
def processLine (l : List Char) : List String :=
  if rmatch sourceLineRE l then
    (extractQuoted l).map (fun m => String.mk (filepathBase m))
  else []

/-- One entry of an `os.ReadDir` listing: its name and whether it is a
directory. -/
structure DirEntry where
  name : String
  isDir : Bool
deriving DecidableEq

/-- The observable outcome of opening a file and scanning it with
`bufio.Scanner`: the lines the scanner delivered, and whether the scan
stopped because of a read error (the value `scanner.Err()` would report). -/
structure FileData where
  lines : List String
  scanErr : Bool
deriving DecidableEq

/-- The filesystem as observed by the Go code: `os.ReadDir` listings per
directory path (`none` when reading the directory fails) and
open-and-scan results per file path (`none` when `os.Open` fails). -/
structure FS where
  readDir : String → Option (List DirEntry)
  openFile : String → Option FileData

/-- Abrupt terminations of the operation.  The Go code reaches them through
`panic(err)`: a failed `os.ReadDir` of the examples or tests root, or a
failed `os.Open` of a selected test file.  There is no constructor for a
mid-scan read error: the code never consults `scanner.Err()`, so a scan
error cannot abort the operation. -/
inductive FsError where
  | directoryReadError : FsError
  | fileOpenError : FsError
deriving DecidableEq

/-- Result of a fallible step: a value, or an abrupt termination. -/
inductive FsResult (α : Type) where
  | ok : α → FsResult α
  | err : FsError → FsResult α
deriving DecidableEq

/-- Prefix test on character lists. -/
def hasPrefix : List Char → List Char → Bool
  | [], _ => true
  | _ :: _, [] => false
  | c :: cs, d :: ds => c == d && hasPrefix cs ds

/-- Unanchored substring test on character lists: does `sub` occur at some
position of the second list? -/
def containsSeq (sub : List Char) : List Char → Bool
  | [] => sub.isEmpty
  | c :: t => hasPrefix sub (c :: t) || containsSeq sub t

/-- Embedding of Go's `strings.Contains`: unanchored, case-sensitive
substring test. -/
def strContains (s sub : String) : Bool :=
  containsSeq sub.data s.data

/-- Embedding of `filepath.Join(dir, name)` for the already-clean paths the
operation builds (Join also runs `filepath.Clean`, which is the identity on
such paths). -/
def joinPath (dir name : String) : String :=
  dir ++ "/" ++ name

/-- The selection test of the `findMissingTests` loop over the tests root:
`!file.IsDir() && strings.Contains(file.Name(), filter)`. -/
def selected (filt : String) (f : DirEntry) : Bool :=
  !f.isDir && strContains f.name filt

/-- Embedding of `searchFile`: open the file (a failed `os.Open` panics,
embedded as `fileOpenError`), then fold the line loop over the lines the
scanner delivers.  As in the source, the scan-error state of the scanner is
never consulted, and the `pattern` and `examplesDirectory` parameters are
received but unused. -/
def searchFile (fs : FS) (file : String) (_pattern : String)
    (_examplesDirectory : String) : FsResult (List String) :=
  match fs.openFile file with
  | none => .err .fileOpenError
  | some fd => .ok (fd.lines.foldr (fun line acc => processLine line.data ++ acc) [])

/-- The loop of `findMissingTests` over the tests-root listing: each
non-directory entry whose name contains the filter is scanned with
`searchFile` and its references are appended to `tests`. -/
def collectTests (fs : FS) (testsDirectory filt sourceFilter examplesDirectory : String) :
    List DirEntry → FsResult (List String)
  | [] => .ok []
  | f :: rest =>
    if selected filt f then
      match searchFile fs (joinPath testsDirectory f.name) sourceFilter examplesDirectory with
      | .err e => .err e
      | .ok refs =>
        match collectTests fs testsDirectory filt sourceFilter examplesDirectory rest with
        | .err e => .err e
        | .ok more => .ok (refs ++ more)
    else collectTests fs testsDirectory filt sourceFilter examplesDirectory rest

/-- The example-enumeration loop of `findMissingTests`: the names of the
directory entries of the examples root that are directories, in listing
order. -/
def exampleNames (entries : List DirEntry) : List String :=
  (entries.filter (fun f => f.isDir)).map (fun f => f.name)

/-- The literal `sourceFilter` of `findMissingTests` (passed to `searchFile`
and unused there). -/
def sourceFilterLit : String := "source = \"./examples"

/-- Embedding of `findMissingTests`: read the examples root (panic on
failure, embedded as `directoryReadError`), collect the directory names,
read the tests root (likewise), scan each selected test file, and return the
example names with no extracted reference, in enumeration order. -/
def findMissingTests (fs : FS) (examplesDirectory testsDirectory filt : String) :
    FsResult (List String) :=
  match fs.readDir examplesDirectory with
  | none => .err .directoryReadError
  | some files =>
    match fs.readDir testsDirectory with
    | none => .err .directoryReadError
    | some testFiles =>
      match collectTests fs testsDirectory filt sourceFilterLit examplesDirectory testFiles with
      | .err e => .err e
      | .ok tests =>
        .ok ((exampleNames files).filter (fun e => !(tests.contains e)))

/-- The `/`-delimited components of a path, in order (a path with no slash is
one component; every slash separates two components, so leading, trailing and
doubled slashes contribute empty components). -/
def splitSlash : List Char → List (List Char)
  | [] => [[]]
  | c :: cs =>
    match splitSlash cs with
    | [] => [[c]]
    | h :: t => if c = '/' then [] :: h :: t else (c :: h) :: t

/-- Written from the spec's words for claim C5: the final `/`-delimited
component of a path, i.e. what remains when all but the last `/`-delimited
component is discarded. -/
def specLastComponent (l : List Char) : List Char :=
  (splitSlash l).getLastD []

/-- Written from the spec's words for claim C1: the line consists of optional
leading whitespace, the literal token `source`, optional whitespace, `=`,
optional whitespace, and one double-quoted string whose contents contain the
substring `examples` anywhere, with nothing else on the line after the
closing quote. -/
def specC1LineMatch (l : List Char) : Bool :=
  let l1 := l.dropWhile isGoSpace
  if hasPrefix "source".data l1 then
    match (l1.drop 6).dropWhile isGoSpace with
    | '=' :: l3 =>
      match l3.dropWhile isGoSpace with
      | '"' :: l5 =>
        let content := l5.takeWhile (fun c => c != '"')
        match l5.dropWhile (fun c => c != '"') with
        | '"' :: l6 => l6.isEmpty && containsSeq "examples".data content
        | _ => false
      | _ => false
    | _ => false
  else false

/-- The amended shape of a matching line for claim C1: optional leading
whitespace, `source`, optional whitespace, `=`, optional whitespace, a double
quote, at least one non-newline character, `examples`, at least one more
non-newline character, and a closing double quote ending the line.  The
characters around `examples` are arbitrary non-newline characters and may
themselves include double quotes. -/
def amendedC1Shape (l : List Char) : Prop :=
  ∃ w1 w2 w3 a b : List Char,
    l = w1 ++ ("source".data ++ (w2 ++ (['='] ++ (w3 ++ (['"'] ++ (a ++
        ("examples".data ++ (b ++ ['"'])))))))) ∧
    w1.all isGoSpace = true ∧ w2.all isGoSpace = true ∧
    w3.all isGoSpace = true ∧
    a ≠ [] ∧ b ≠ [] ∧
    a.all (fun c => c != '\n') = true ∧ b.all (fun c => c != '\n') = true

/-- A line whose quoted contents start with `examples`: the spec's line-level
pattern accepts it, the code's regular expression does not. -/
def c1LineA : List Char := "source = \"examples/x\"".data

/-- A line with two quoted tokens around `examples` text: the spec's
line-level pattern (one quoted string, nothing else on the line) rejects it,
the code's regular expression accepts it. -/
def c1LineB : List Char := "source = \"xexamplesy\" \"z\"".data

/-- A matching line whose quoted path ends in a slash, distinguishing
`filepath.Base` from the literal last `/`-delimited component. -/
def c5Line : List Char := "source = \"./examples/b/\"".data

/-- A matching line carrying two quoted tokens. -/
def c6Line : List Char := "source = \"./examples/a\" \"./examples/b\"".data

/-- A well-formed matching line, as in the spec's end-to-end example. -/
def goodLine : List Char := "  source = \"./examples/basic\"".data

/-- Listing of the examples root used by the concrete theorems: directories
`basic` and `advanced`. -/
def demoExamplesEntries : List DirEntry :=
  [⟨"basic", true⟩, ⟨"advanced", true⟩]

/-- Listing of the tests root used by the concrete theorems: one file
`basic_test.cfg`. -/
def demoTestsEntries : List DirEntry :=
  [⟨"basic_test.cfg", false⟩]

/-- Concrete filesystem of the spec's end-to-end example: examples root
`examples` with directories `basic` and `advanced`, tests root `tests` with
the file `basic_test.cfg` containing the line `  source = "./examples/basic"`,
scanned without error. -/
def demoFS : FS where
  readDir := fun d =>
    if d = "examples" then some demoExamplesEntries
    else if d = "tests" then some demoTestsEntries
    else none
  openFile := fun p =>
    if p = "tests/basic_test.cfg" then
      some ⟨["  source = \"./examples/basic\""], false⟩
    else none

/-- A directory entry whose name does not contain the filter
`_test.cfg`. -/
def offEntry : DirEntry := ⟨"readme.md", false⟩

/-- The same filesystem, except that the line reader of `basic_test.cfg`
fails with an I/O error after delivering its first line: the scanner stops
and `scanner.Err()` would report the error. -/
def scanErrFS : FS where
  readDir := fun d =>
    if d = "examples" then some demoExamplesEntries
    else if d = "tests" then some demoTestsEntries
    else none
  openFile := fun p =>
    if p = "tests/basic_test.cfg" then
      some ⟨["  source = \"./examples/basic\""], true⟩
    else none

theorem lang_emp_iff {x : List Char} : Lang .emp x ↔ False := by
  constructor
  · intro h; cases h
  · intro h; exact h.elim

theorem lang_eps_iff {x : List Char} : Lang .eps x ↔ x = [] := by
  constructor
  · intro h; cases h; rfl
  · intro h; subst h; exact .eps

theorem lang_cls_iff {p : Char → Bool} {x : List Char} :
    Lang (.cls p) x ↔ ∃ c, x = [c] ∧ p c = true := by
  constructor
  · intro h; cases h with
    | cls hp => exact ⟨_, rfl, hp⟩
  · rintro ⟨c, rfl, hp⟩; exact .cls hp

theorem lang_alt_iff {r s : RE} {x : List Char} :
    Lang (.alt r s) x ↔ Lang r x ∨ Lang s x := by
  constructor
  · intro h; cases h with
    | altL h => exact .inl h
    | altR h => exact .inr h
  · rintro (h | h)
    · exact .altL h
    · exact .altR h

theorem lang_cat_iff {r s : RE} {x : List Char} :
    Lang (.cat r s) x ↔ ∃ a b, x = a ++ b ∧ Lang r a ∧ Lang s b := by
  constructor
  · intro h; cases h with
    | cat ha hb => exact ⟨_, _, rfl, ha, hb⟩
  · rintro ⟨a, b, rfl, ha, hb⟩; exact .cat ha hb

theorem isEmp_eq_true_iff {r : RE} : r.isEmp = true ↔ r = .emp := by
  cases r <;> simp [RE.isEmp]

theorem isEps_eq_true_iff {r : RE} : r.isEps = true ↔ r = .eps := by
  cases r <;> simp [RE.isEps]

theorem lang_altS_iff {r s : RE} {x : List Char} :
    Lang (RE.altS r s) x ↔ Lang r x ∨ Lang s x := by
  unfold RE.altS
  split
  · next h =>
    rw [isEmp_eq_true_iff.mp h]
    simp [lang_emp_iff]
  · split
    · next h =>
      rw [isEmp_eq_true_iff.mp h]
      simp [lang_emp_iff]
    · exact lang_alt_iff

theorem lang_catS_iff {r s : RE} {x : List Char} :
    Lang (RE.catS r s) x ↔ ∃ a b, x = a ++ b ∧ Lang r a ∧ Lang s b := by
  unfold RE.catS
  split
  · next h =>
    rcases Bool.or_eq_true_iff.mp h with h | h
    · rw [isEmp_eq_true_iff.mp h]
      simp [lang_emp_iff]
    · rw [isEmp_eq_true_iff.mp h]
      simp [lang_emp_iff]
  · split
    · next h =>
      rw [isEps_eq_true_iff.mp h]
      constructor
      · intro hs; exact ⟨[], x, rfl, .eps, hs⟩
      · rintro ⟨a, b, rfl, ha, hb⟩
        rw [lang_eps_iff.mp ha]; simpa using hb
    · split
      · next h =>
        rw [isEps_eq_true_iff.mp h]
        constructor
        · intro hr; exact ⟨x, [], by simp, hr, .eps⟩
        · rintro ⟨a, b, rfl, ha, hb⟩
          rw [lang_eps_iff.mp hb]; simpa using ha
      · exact lang_cat_iff

theorem nullable_iff {r : RE} : nullable r = true ↔ Lang r [] := by
  induction r with
  | emp => simp [nullable, lang_emp_iff]
  | eps => simp [nullable, lang_eps_iff]
  | cls p => simp [nullable, lang_cls_iff]
  | alt r s ihr ihs => simp [nullable, lang_alt_iff, ihr, ihs]
  | cat r s ihr ihs =>
    simp only [nullable, Bool.and_eq_true, lang_cat_iff, ihr, ihs]
    constructor
    · rintro ⟨hr, hs⟩; exact ⟨[], [], rfl, hr, hs⟩
    · rintro ⟨a, b, hab, ha, hb⟩
      rcases List.append_eq_nil.mp hab.symm with ⟨rfl, rfl⟩
      exact ⟨ha, hb⟩
  | star r ih =>
    simp only [nullable, true_iff]
    exact .starNil

theorem star_cons_inv {r0 : RE} {y : List Char} (h : Lang r0 y) :
    ∀ {r : RE}, r0 = .star r → ∀ {c : Char} {x : List Char}, y = c :: x →
      ∃ a b, x = a ++ b ∧ Lang r (c :: a) ∧ Lang (.star r) b := by
  induction h with
  | eps => intro r hr; exact (RE.noConfusion hr)
  | cls _ => intro r hr; exact (RE.noConfusion hr)
  | altL _ _ => intro r hr; exact (RE.noConfusion hr)
  | altR _ _ => intro r hr; exact (RE.noConfusion hr)
  | cat _ _ _ _ => intro r hr; exact (RE.noConfusion hr)
  | starNil => intro r hr c x hx; exact (List.noConfusion hx)
  | starCons ha hb iha ihb =>
    intro r hr c x hx
    cases hr
    rename_i a b
    cases a with
    | nil =>
      simp only [List.nil_append] at hx
      exact ihb rfl hx
    | cons c0 a0 =>
      rw [List.cons_append] at hx
      cases hx
      exact ⟨a0, b, rfl, ha, hb⟩

theorem deriv_iff {r : RE} {c : Char} {x : List Char} :
    Lang (deriv r c) x ↔ Lang r (c :: x) := by
  induction r generalizing x with
  | emp =>
    simp [deriv, lang_emp_iff]
  | eps =>
    simp [deriv, lang_emp_iff, lang_eps_iff]
  | cls p =>
    simp only [deriv]
    split
    · next hp =>
      simp only [lang_eps_iff, lang_cls_iff]
      constructor
      · rintro rfl; exact ⟨c, rfl, hp⟩
      · rintro ⟨d, hd, _⟩
        cases hd; rfl
    · next hp =>
      simp only [lang_emp_iff, false_iff, lang_cls_iff]
      rintro ⟨d, hd, hpd⟩
      cases hd
      exact hp hpd
  | alt r s ihr ihs =>
    simp [deriv, lang_altS_iff, lang_alt_iff, ihr, ihs]
  | cat r s ihr ihs =>
    simp only [deriv]
    split
    · next hn =>
      rw [lang_altS_iff, lang_catS_iff]
      constructor
      · rintro (⟨a, b, rfl, ha, hb⟩ | hs)
        · exact lang_cat_iff.mpr ⟨c :: a, b, rfl, ihr.mp ha, hb⟩
        · exact lang_cat_iff.mpr ⟨[], c :: x, rfl, nullable_iff.mp hn, ihs.mp hs⟩
      · intro h
        rcases lang_cat_iff.mp h with ⟨a, b, hab, ha, hb⟩
        cases a with
        | nil =>
          simp only [List.nil_append] at hab
          exact .inr (ihs.mpr (hab ▸ hb))
        | cons a0 a1 =>
          rw [List.cons_append] at hab
          cases hab
          exact .inl ⟨a1, b, rfl, ihr.mpr ha, hb⟩
    · next hn =>
      rw [lang_catS_iff]
      constructor
      · rintro ⟨a, b, rfl, ha, hb⟩
        exact lang_cat_iff.mpr ⟨c :: a, b, rfl, ihr.mp ha, hb⟩
      · intro h
        rcases lang_cat_iff.mp h with ⟨a, b, hab, ha, hb⟩
        cases a with
        | nil =>
          exact absurd (nullable_iff.mpr ha) (by simpa using hn)
        | cons a0 a1 =>
          rw [List.cons_append] at hab
          cases hab
          exact ⟨a1, b, rfl, ihr.mpr ha, hb⟩
  | star r ih =>
    simp only [deriv]
    rw [lang_catS_iff]
    constructor
    · rintro ⟨a, b, rfl, ha, hb⟩
      exact (List.cons_append c a b) ▸ Lang.starCons (ih.mp ha) hb
    · intro h
      rcases star_cons_inv h rfl rfl with ⟨a, b, rfl, ha, hb⟩
      exact ⟨a, b, rfl, ih.mpr ha, hb⟩

theorem rmatch_iff {r : RE} {x : List Char} : rmatch r x = true ↔ Lang r x := by
  induction x generalizing r with
  | nil => exact nullable_iff
  | cons c cs ih => simpa [rmatch] using (ih (r := deriv r c)).trans deriv_iff

theorem lang_chr_iff {c : Char} {x : List Char} :
    Lang (chrRE c) x ↔ x = [c] := by
  unfold chrRE
  rw [lang_cls_iff]
  constructor
  · rintro ⟨d, rfl, hd⟩
    rw [beq_iff_eq.mp hd]
  · rintro rfl
    exact ⟨c, rfl, beq_self_eq_true c⟩

theorem lang_star_cls_iff {p : Char → Bool} {x : List Char} :
    Lang (.star (.cls p)) x ↔ x.all p = true := by
  induction x with
  | nil =>
    simp only [List.all_nil, iff_true]
    exact .starNil
  | cons c cs ih =>
    constructor
    · intro h
      rcases star_cons_inv h rfl rfl with ⟨a, b, hx, ha, hb⟩
      rcases lang_cls_iff.mp ha with ⟨d, hd, hpd⟩
      cases hd
      simp only [List.nil_append] at hx
      subst hx
      simp [hpd, ih.mp hb]
    · intro h
      rw [List.all_cons, Bool.and_eq_true] at h
      exact Lang.starCons (.cls h.1) (ih.mpr h.2)

theorem lang_plus_cls_iff {p : Char → Bool} {x : List Char} :
    Lang (plusRE (.cls p)) x ↔ x ≠ [] ∧ x.all p = true := by
  unfold plusRE
  rw [lang_cat_iff]
  constructor
  · rintro ⟨a, b, rfl, ha, hb⟩
    rcases lang_cls_iff.mp ha with ⟨c, rfl, hpc⟩
    simp [hpc, lang_star_cls_iff.mp hb]
  · rintro ⟨hne, hall⟩
    cases x with
    | nil => exact absurd rfl hne
    | cons c cs =>
      rw [List.all_cons, Bool.and_eq_true] at hall
      exact ⟨[c], cs, rfl, .cls hall.1, lang_star_cls_iff.mpr hall.2⟩

theorem lang_strRE_iff {w x : List Char} : Lang (strRE w) x ↔ x = w := by
  induction w generalizing x with
  | nil => exact lang_eps_iff
  | cons c w ih =>
    unfold strRE
    rw [lang_cat_iff]
    constructor
    · rintro ⟨a, b, rfl, ha, hb⟩
      rw [lang_chr_iff.mp ha, ih.mp hb]
      rfl
    · rintro rfl
      exact ⟨[c], w, rfl, lang_chr_iff.mpr rfl, ih.mpr rfl⟩

theorem lang_star_ws_iff {x : List Char} :
    Lang (.star wsRE) x ↔ x.all isGoSpace = true := by
  unfold wsRE
  exact lang_star_cls_iff

theorem lang_plus_dot_iff {x : List Char} :
    Lang (plusRE dotRE) x ↔ x ≠ [] ∧ x.all (fun c => c != '\n') = true := by
  unfold dotRE
  exact lang_plus_cls_iff

/-- Claim C1, corrected.  A line matches the extractor's line-level pattern
`^\s*source\s*=\s*".+examples.+"$` exactly when it consists of optional
leading whitespace, `source`, optional whitespace, `=`, optional whitespace,
a double quote, at least one non-newline character, `examples`, at least one
further non-newline character, and a closing double quote that ends the
line.  In particular `examples` at the very start or very end of the quoted
contents does not match, and the characters surrounding `examples` may
include further double quotes, so a line with several quoted tokens can
match. -/
theorem sourceLineRegex_characterization (l : List Char) :
    rmatch sourceLineRE l = true ↔ amendedC1Shape l := by
  rw [rmatch_iff]
  unfold sourceLineRE
  constructor
  · intro h
    rcases lang_cat_iff.mp h with ⟨w1, r1, rfl, hw1, h⟩
    rcases lang_cat_iff.mp h with ⟨s1, r2, rfl, hs1, h⟩
    rcases lang_cat_iff.mp h with ⟨w2, r3, rfl, hw2, h⟩
    rcases lang_cat_iff.mp h with ⟨e1, r4, rfl, he1, h⟩
    rcases lang_cat_iff.mp h with ⟨w3, r5, rfl, hw3, h⟩
    rcases lang_cat_iff.mp h with ⟨q1, r6, rfl, hq1, h⟩
    rcases lang_cat_iff.mp h with ⟨a, r7, rfl, ha, h⟩
    rcases lang_cat_iff.mp h with ⟨ex, r8, rfl, hex, h⟩
    rcases lang_cat_iff.mp h with ⟨b, q2, rfl, hb, hq2⟩
    obtain rfl := lang_strRE_iff.mp hs1
    obtain rfl := lang_strRE_iff.mp hex
    obtain rfl := lang_chr_iff.mp he1
    obtain rfl := lang_chr_iff.mp hq1
    obtain rfl := lang_chr_iff.mp hq2
    rcases lang_plus_dot_iff.mp ha with ⟨hane, haall⟩
    rcases lang_plus_dot_iff.mp hb with ⟨hbne, hball⟩
    exact ⟨w1, w2, w3, a, b, rfl, lang_star_ws_iff.mp hw1,
      lang_star_ws_iff.mp hw2, lang_star_ws_iff.mp hw3,
      hane, hbne, haall, hball⟩
  · rintro ⟨w1, w2, w3, a, b, rfl, hw1, hw2, hw3, ha, hb, ha2, hb2⟩
    exact Lang.cat (lang_star_ws_iff.mpr hw1)
      (Lang.cat (lang_strRE_iff.mpr rfl)
        (Lang.cat (lang_star_ws_iff.mpr hw2)
          (Lang.cat (lang_chr_iff.mpr rfl)
            (Lang.cat (lang_star_ws_iff.mpr hw3)
              (Lang.cat (lang_chr_iff.mpr rfl)
                (Lang.cat (lang_plus_dot_iff.mpr ⟨ha, ha2⟩)
                  (Lang.cat (lang_strRE_iff.mpr rfl)
                    (Lang.cat (lang_plus_dot_iff.mpr ⟨hb, hb2⟩)
                      (lang_chr_iff.mpr rfl)))))))))

/-- Claim C1, counterexamples to the claim as stated.  The line
`source = "examples/x"` fits the claimed pattern (its quoted contents start
with `examples`) but the code's regular expression rejects it; the line
`source = "xexamplesy" "z"` does not fit the claimed pattern (there is
content after the first closing quote, not a single quoted string) but the
code's regular expression accepts it and the extractor emits references from
it. -/
theorem sourceLineRegex_claim_counterexample :
    (specC1LineMatch c1LineA = true ∧ rmatch sourceLineRE c1LineA = false) ∧
    (specC1LineMatch c1LineB = false ∧ rmatch sourceLineRE c1LineB = true ∧
      processLine c1LineB ≠ []) := by
  decide

/-- Claim C1, witness: the end-to-end example line
`  source = "./examples/basic"` matches, so it has the amended shape. -/
theorem sourceLineRegex_characterization_witness : amendedC1Shape goodLine :=
  (sourceLineRegex_characterization goodLine).mp (by decide)

theorem splitSlash_ne_nil (l : List Char) : splitSlash l ≠ [] := by
  cases l with
  | nil => simp [splitSlash]
  | cons c cs =>
    simp only [splitSlash]
    cases splitSlash cs with
    | nil => simp
    | cons h t => by_cases hc : c = '/' <;> simp [hc]

theorem takeWhile_append_neg (p : Char → Bool) (x : Char) (hx : p x = false)
    (l : List Char) : (l ++ [x]).takeWhile p = l.takeWhile p := by
  induction l with
  | nil => simp [List.takeWhile, hx]
  | cons c t ih =>
    by_cases hc : p c = true
    · simp [List.takeWhile_cons, hc, ih]
    · simp [List.takeWhile_cons, hc]

theorem takeWhile_append_pos (p : Char → Bool) (x : Char) (hx : p x = true)
    (l : List Char) :
    (l ++ [x]).takeWhile p = if l.all p then l ++ [x] else l.takeWhile p := by
  induction l with
  | nil => simp [List.takeWhile, hx]
  | cons c t ih =>
    by_cases hc : p c = true
    · simp only [List.cons_append, List.takeWhile_cons, hc, if_true,
        List.all_cons, Bool.true_and, ih]
      split <;> simp
    · simp [List.takeWhile_cons, hc, List.all_cons]

theorem splitSlash_all {cs : List Char}
    (h : cs.all (fun c => c != '/') = true) : splitSlash cs = [cs] := by
  induction cs with
  | nil => rfl
  | cons c t ih =>
    rw [List.all_cons, Bool.and_eq_true] at h
    have hc : ¬ (c = '/') := by simpa using h.1
    simp [splitSlash, ih h.2, hc]

theorem splitSlash_sep {cs : List Char}
    (h : cs.all (fun c => c != '/') = false) :
    ∃ hd tl, splitSlash cs = hd :: tl ∧ tl ≠ [] := by
  induction cs with
  | nil => simp at h
  | cons c t ih =>
    rw [List.all_cons] at h
    by_cases hc : c = '/'
    · cases hsp : splitSlash t with
      | nil => exact absurd hsp (splitSlash_ne_nil t)
      | cons h0 t0 =>
        refine ⟨[], h0 :: t0, ?_, by simp⟩
        simp [splitSlash, hsp, hc]
    · have hcb : (c != '/') = true := by simpa using hc
      rw [hcb, Bool.true_and] at h
      rcases ih h with ⟨h0, t0, hsp, ht0⟩
      refine ⟨c :: h0, t0, ?_, ht0⟩
      simp [splitSlash, hsp, hc]

theorem getLastD_irrel {α : Type} {t : List α} (h : t ≠ []) (a b : α) :
    t.getLastD a = t.getLastD b := by
  cases t with
  | nil => exact absurd rfl h
  | cons x t0 => rw [List.getLastD_cons, List.getLastD_cons]

theorem afterLastSlash_eq_specLast (l : List Char) :
    afterLastSlash l = specLastComponent l := by
  induction l with
  | nil => rfl
  | cons c cs ih =>
    unfold afterLastSlash specLastComponent
    unfold afterLastSlash specLastComponent at ih
    rw [List.reverse_cons]
    by_cases hc : c = '/'
    · subst hc
      rw [takeWhile_append_neg (fun d => d != '/') '/' (by simp), ih]
      cases hsp : splitSlash cs with
      | nil => exact absurd hsp (splitSlash_ne_nil cs)
      | cons h0 t0 =>
        simp [splitSlash, hsp, List.getLastD_cons]
    · have hcb : (c != '/') = true := by simpa using hc
      rw [takeWhile_append_pos (fun d => d != '/') c hcb, List.all_reverse]
      by_cases hall : cs.all (fun c => c != '/') = true
      · rw [if_pos hall]
        simp [splitSlash, splitSlash_all hall, hc, List.getLastD_cons]
      · have hallf : cs.all (fun c => c != '/') = false := by simpa using hall
        rw [hallf, if_neg (by simp), ih]
        rcases splitSlash_sep hallf with ⟨h0, t0, hsp, ht0⟩
        rw [hsp]
        simp only [splitSlash, hsp, List.getLastD_cons, if_neg hc]
        exact getLastD_irrel ht0 h0 (c :: h0)

theorem dropWhile_head_false (p : Char → Bool) :
    ∀ {l : List Char} {d : Char} {rest : List Char},
      l.dropWhile p = d :: rest → p d = false := by
  intro l
  induction l with
  | nil => intro d rest h; exact absurd h (by simp)
  | cons c t ih =>
    intro d rest h
    rw [List.dropWhile_cons] at h
    split at h
    · exact ih h
    · next hc =>
      cases h
      simpa using hc

theorem stripTrailingSlashes_reverse (q : List Char) :
    (stripTrailingSlashes q).reverse = q.reverse.dropWhile (fun c => c == '/') := by
  unfold stripTrailingSlashes
  rw [List.reverse_reverse]

theorem afterLastSlash_strip_eq_nil_iff (q : List Char) :
    afterLastSlash (stripTrailingSlashes q) = [] ↔ stripTrailingSlashes q = [] := by
  constructor
  · intro h
    by_contra hne
    rcases hd : (stripTrailingSlashes q).reverse with _ | ⟨d, rest⟩
    · exact hne (by simpa using congrArg List.reverse hd)
    · have hd0 : q.reverse.dropWhile (fun c => c == '/') = d :: rest := by
        rw [← stripTrailingSlashes_reverse, hd]
      have hpd : (d == '/') = false := dropWhile_head_false (fun c => c == '/') hd0
      have hdt : (d != '/') = true := by simp [bne, hpd]
      unfold afterLastSlash at h
      rw [hd, List.takeWhile_cons, if_pos hdt] at h
      simp at h
  · intro h
    rw [h]
    rfl

/-- Claim C5, corrected.  The reference emitted for a quoted substring is
`filepath.Base` of the substring: an empty substring yields `.`; otherwise
trailing slashes are discarded first, a substring consisting only of slashes
yields `/`, and what remains is the last `/`-delimited component of the
trailing-slash-stripped substring.  (For substrings with no trailing slash,
such as `../../examples/group/basic`, this is the final path segment,
here `basic`.) -/
theorem filepathBase_characterization (q : List Char) :
    filepathBase q =
      if q = [] then ['.']
      else if stripTrailingSlashes q = [] then ['/']
      else specLastComponent (stripTrailingSlashes q) := by
  unfold filepathBase
  by_cases hq : q = []
  · rw [if_pos hq, if_pos hq]
  · rw [if_neg hq, if_neg hq]
    show (if afterLastSlash (stripTrailingSlashes q) = [] then ['/']
      else afterLastSlash (stripTrailingSlashes q)) = _
    by_cases hs : stripTrailingSlashes q = []
    · rw [if_pos ((afterLastSlash_strip_eq_nil_iff q).mpr hs), if_pos hs]
    · have h1 : ¬ afterLastSlash (stripTrailingSlashes q) = [] :=
        fun hcon => hs ((afterLastSlash_strip_eq_nil_iff q).mp hcon)
      rw [if_neg h1, if_neg hs, afterLastSlash_eq_specLast]

/-- Claim C5, counterexample to the claim as stated.  The line
`source = "./examples/b/"` matches the line-level pattern and its quoted
substring is `./examples/b/`; its last `/`-delimited component is the empty
string, yet the extractor emits `b` (`filepath.Base` strips the trailing
slash first). -/
theorem filepathBase_claim_counterexample :
    rmatch sourceLineRE c5Line = true ∧
    extractQuoted c5Line = ["./examples/b/".data] ∧
    processLine c5Line = ["b"] ∧
    specLastComponent "./examples/b/".data = [] ∧
    processLine c5Line ≠ [String.mk (specLastComponent "./examples/b/".data)] := by
  decide

/-- Claim C2, demonstrating the code bug.  On a filesystem whose line reader
fails with an I/O error after delivering the line
`  source = "./examples/basic"` of the selected test file (`scanErr` is set,
i.e. `scanner.Err()` would be non-nil), the operation does not fail: it
returns the ordinary report built from the lines read before the error,
because `searchFile` never consults the scanner's error state. -/
theorem scanError_silently_ignored :
    scanErrFS.openFile "tests/basic_test.cfg" =
      some ⟨["  source = \"./examples/basic\""], true⟩ ∧
    findMissingTests scanErrFS "examples" "tests" "_test.cfg" = .ok ["advanced"] := by
  constructor
  · decide
  · decide

/-- Claim C4.  With examples root holding exactly the directories `basic` and
`advanced`, tests root holding `basic_test.cfg` whose content includes the
line `  source = "./examples/basic"`, and filter `_test.cfg`, the operation
returns exactly the missing list `["advanced"]`. -/
theorem findMissingTests_end_to_end :
    findMissingTests demoFS "examples" "tests" "_test.cfg" = .ok ["advanced"] := by
  decide

/-- Claim C6.  On every line matching the line-level pattern the extractor
emits one reference per double-quoted substring of the line, each normalized
independently with `filepath.Base`; in particular the matching line
`source = "./examples/a" "./examples/b"` carries the two quoted tokens
`./examples/a` and `./examples/b` and yields exactly the two references `a`
and `b`. -/
theorem matching_line_extracts_all_quoted :
    (∀ l : List Char, rmatch sourceLineRE l = true →
      processLine l = (extractQuoted l).map (fun m => String.mk (filepathBase m))) ∧
    extractQuoted c6Line = ["./examples/a".data, "./examples/b".data] ∧
    processLine c6Line = ["a", "b"] := by
  refine ⟨?_, by decide, by decide⟩
  intro l hl
  simp [processLine, hl]

/-- Claim C6, witness: the two-token line instantiates the universal part. -/
theorem matching_line_extracts_all_quoted_witness :
    processLine c6Line = (extractQuoted c6Line).map (fun m => String.mk (filepathBase m)) :=
  matching_line_extracts_all_quoted.1 c6Line (by decide)

theorem containsSeq_nil (l : List Char) : containsSeq [] l = true := by
  cases l <;> simp [containsSeq, hasPrefix, List.isEmpty]

/-- Claim C10.  With the empty filter, the substring test of the selection
predicate holds for every file name, so exactly the non-directory entries of
the tests root are selected; concretely, the end-to-end example still scans
its test file and computes the same missing report under the empty
filter. -/
theorem empty_filter_selects_all_files :
    (∀ f : DirEntry, selected "" f = !f.isDir) ∧
    findMissingTests demoFS "examples" "tests" "" = .ok ["advanced"] := by
  constructor
  · intro f
    simp [selected, strContains, containsSeq_nil]
  · decide

theorem collectTests_ext (fs fs' : FS) (td filt sf exd : String) :
    ∀ entries : List DirEntry,
      (∀ g ∈ entries, selected filt g = true →
        fs.openFile (joinPath td g.name) = fs'.openFile (joinPath td g.name)) →
      collectTests fs td filt sf exd entries = collectTests fs' td filt sf exd entries := by
  intro entries
  induction entries with
  | nil => intro _; rfl
  | cons g rest ih =>
    intro hagree
    have hrest : ∀ g0 ∈ rest, selected filt g0 = true →
        fs.openFile (joinPath td g0.name) = fs'.openFile (joinPath td g0.name) :=
      fun g0 hm hs => hagree g0 (by simp [hm]) hs
    by_cases hg : selected filt g = true
    · have hsf : searchFile fs (joinPath td g.name) sf exd =
          searchFile fs' (joinPath td g.name) sf exd := by
        unfold searchFile
        rw [hagree g (by simp) hg]
      simp only [collectTests, hg, if_true, hsf, ih hrest]
    · have hgf : selected filt g = false := by simpa using hg
      simp only [collectTests, hgf, Bool.false_eq_true, if_false, ih hrest]

/-- Claim C7.  The selection predicate holds exactly for non-directory
entries whose name contains the filter as a (case-sensitive, unanchored)
substring; an unselected entry is skipped outright, and the result of the
scan loop depends only on the contents of the selected files (so an
unselected file contributes no references no matter what its content is). -/
theorem selector_filters_and_frames (fs fs' : FS) (td filt sf exd : String)
    (entries rest : List DirEntry) (f : DirEntry)
    (hagree : ∀ g ∈ entries, selected filt g = true →
      fs.openFile (joinPath td g.name) = fs'.openFile (joinPath td g.name))
    (hf : selected filt f = false) :
    collectTests fs td filt sf exd entries = collectTests fs' td filt sf exd entries ∧
    collectTests fs td filt sf exd (f :: rest) = collectTests fs td filt sf exd rest ∧
    (∀ g : DirEntry, selected filt g = true ↔
      (g.isDir = false ∧ strContains g.name filt = true)) := by
  refine ⟨collectTests_ext fs fs' td filt sf exd entries hagree, ?_, ?_⟩
  · simp [collectTests, hf]
  · intro g
    simp [selected, Bool.and_eq_true, Bool.not_eq_true']

/-- Claim C7, witness: instantiated on the end-to-end filesystem with the
unselected entry `readme.md`. -/
theorem selector_filters_and_frames_witness :
    collectTests demoFS "tests" "_test.cfg" sourceFilterLit "examples" demoTestsEntries =
      collectTests demoFS "tests" "_test.cfg" sourceFilterLit "examples" demoTestsEntries ∧
    collectTests demoFS "tests" "_test.cfg" sourceFilterLit "examples"
        (offEntry :: demoTestsEntries) =
      collectTests demoFS "tests" "_test.cfg" sourceFilterLit "examples" demoTestsEntries ∧
    (∀ g : DirEntry, selected "_test.cfg" g = true ↔
      (g.isDir = false ∧ strContains g.name "_test.cfg" = true)) :=
  selector_filters_and_frames demoFS demoFS "tests" "_test.cfg" sourceFilterLit "examples"
    demoTestsEntries demoTestsEntries offEntry (fun g _ _ => rfl) (by decide)

/-- Claim C8.  If the examples root or the tests root cannot be listed, the
whole operation aborts with `directoryReadError` (the embedded `panic`) and
returns no missing report, partial or otherwise. -/
theorem directory_read_error_aborts (fs : FS) (ed td filt : String) :
    (fs.readDir ed = none →
      findMissingTests fs ed td filt = .err .directoryReadError) ∧
    (fs.readDir td = none →
      findMissingTests fs ed td filt = .err .directoryReadError) := by
  constructor
  · intro h
    unfold findMissingTests
    rw [h]
  · intro h
    unfold findMissingTests
    cases he : fs.readDir ed with
    | none => rfl
    | some files => rw [h]

/-- Claim C8, witness: listing a missing examples root aborts the
operation. -/
theorem directory_read_error_aborts_witness :
    findMissingTests demoFS "missing" "tests" "x" = .err .directoryReadError :=
  (directory_read_error_aborts demoFS "missing" "tests" "x").1 (by decide)

/-- Claim C9.  The operation is a pure function of its inputs and the
filesystem contents it observes: two runs against filesystems that answer
every directory listing and every file open identically return identical
results (and the embedding is a pure function, reflecting that the Go code
only performs read operations on the filesystem). -/
theorem findMissingTests_deterministic (fs fs' : FS) (ed td filt : String)
    (h1 : ∀ d, fs.readDir d = fs'.readDir d)
    (h2 : ∀ p, fs.openFile p = fs'.openFile p) :
    findMissingTests fs ed td filt = findMissingTests fs' ed td filt := by
  have hct : ∀ tf : List DirEntry,
      collectTests fs td filt sourceFilterLit ed tf =
        collectTests fs' td filt sourceFilterLit ed tf :=
    fun tf => collectTests_ext fs fs' td filt sourceFilterLit ed tf (fun g _ _ => h2 _)
  unfold findMissingTests
  rw [h1 ed, h1 td]
  cases fs'.readDir ed with
  | none => rfl
  | some files =>
    cases fs'.readDir td with
    | none => rfl
    | some testFiles => simp only [hct]

/-- Claim C9, witness: a rerun on the unchanged end-to-end filesystem
returns the identical result. -/
theorem findMissingTests_deterministic_witness :
    findMissingTests demoFS "examples" "tests" "_test.cfg" =
      findMissingTests demoFS "examples" "tests" "_test.cfg" :=
  findMissingTests_deterministic demoFS demoFS "examples" "tests" "_test.cfg"
    (fun _ => rfl) (fun _ => rfl)

/-- Claim C3.  When the operation succeeds, the missing report is exactly the
subsequence of the enumerated example names that are absent from the
accumulated reference list: it is a sublist of the enumeration (hence in
enumeration order, with no foreign names), and it contains an example name
precisely when that name was enumerated and no reference equals it. -/
theorem findMissingTests_missing_exact (fs : FS) (ed td filt : String)
    (entries tentries : List DirEntry) (tests missing : List String)
    (he : fs.readDir ed = some entries)
    (ht : fs.readDir td = some tentries)
    (hc : collectTests fs td filt sourceFilterLit ed tentries = .ok tests)
    (hm : findMissingTests fs ed td filt = .ok missing) :
    List.Sublist missing (exampleNames entries) ∧
    (∀ e, e ∈ missing ↔ (e ∈ exampleNames entries ∧ tests.contains e = false)) := by
  simp only [findMissingTests, he, ht, hc] at hm
  cases hm
  constructor
  · exact List.filter_sublist _
  · intro e
    rw [List.mem_filter]
    simp [Bool.not_eq_true']

/-- Claim C3, witness: instantiated on the end-to-end filesystem, where the
enumeration is `basic, advanced`, the reference list is `basic`, and the
missing report is `advanced`. -/
theorem findMissingTests_missing_exact_witness :
    List.Sublist ["advanced"] (exampleNames demoExamplesEntries) ∧
    (∀ e, e ∈ (["advanced"] : List String) ↔
      (e ∈ exampleNames demoExamplesEntries ∧
        (["basic"] : List String).contains e = false)) :=
  findMissingTests_missing_exact demoFS "examples" "tests" "_test.cfg"
    demoExamplesEntries demoTestsEntries ["basic"] ["advanced"]
    (by decide) (by decide) (by decide) (by decide)

end Coverage
